import Mathlib

/-!
Shallow embedding of the toggo feature-flag evaluation core
(condition evaluator, deterministic-hash rollout strategy, switchback
rollout strategy, and the flag store), translated from the Go sources:
`condition.go`, `context.go`, `operator.go`, `rollout.go`, `store.go`,
`internal/hash/fnv.go`, and the flag/evaluator files.

Modelling conventions:
* Go `int`/`int64` are modelled as `Int` (no claim under verification
  depends on 64-bit overflow); the FNV-1a fingerprint is computed over
  `Nat` with an explicit `% 2^32` at each multiplication step, exactly
  as the `uint32` arithmetic in Go does.
* Go `error` values are modelled by the inductive `GoError`; functions
  returning `(T, error)` are modelled as tuples with an `Option GoError`
  component, mirroring the Go return values position by position.
* `Context` values (`interface\x7b\x7d` in Go) are modelled by the closed sum
  `Value` of strings, integers, booleans and lists of scalars, which is
  what the repository's own tests and loaders construct.  Floating-point
  context values and `strconv.ParseFloat` rounding are not modelled
  (no claim under verification depends on numeric comparison); numeric
  strings are parsed into `Rat`.
* The platform regex engine (`regexp.MatchString`) is external to the
  repository; the evaluator is parametrised by it (`RegexMatcher`).
* Go maps are modelled as association lists with unique keys; map
  insert/delete become `insertFlag` / `List.filter`.
-/

namespace Toggo

/-- Errors of `errors.go`: the five sentinel errors plus a generic
constructor for `fmt.Errorf`-produced errors (e.g. the numeric
conversion failure in `toFloat64` and regex compilation errors). -/
inductive GoError where
  | flagNotFound
  | invalidOperator
  | invalidRollout
  | invalidCondition
  | rolloutKeyMissing
  | errorString (msg : String)
deriving DecidableEq

/-- Scalar context/condition values: Go `string`, `int`, `bool`. -/
inductive Scalar where
  | s (v : String)
  | i (n : Int)
  | b (v : Bool)
deriving DecidableEq

/-- A context or condition value: a scalar, or a list of scalars
(modelling Go `[]interface\x7b\x7d` / `[]string` condition values). -/
inductive Value where
  | scalar (v : Scalar)
  | list (l : List Scalar)
deriving DecidableEq

/-- Rendering of a scalar by Go `fmt.Sprint`: strings print as
themselves, ints in decimal, booleans as `true`/`false`. -/
def Scalar.sprint : Scalar → String
  | .s v => v
  | .i n => toString n
  | .b true => "true"
  | .b false => "false"

/-- Rendering of a value by Go `fmt.Sprint`: a slice prints as the
space-separated elements in square brackets. -/
def Value.sprint : Value → String
  | .scalar v => v.sprint
  | .list l => "[" ++ String.intercalate " " (l.map Scalar.sprint) ++ "]"

/-- The evaluation context of `context.go`: `map[string]interface\x7b\x7d`,
modelled as an association list with unique keys. -/
abbrev Context := List (String × Value)

/-- `Context.Get`: comma-ok map lookup. -/
def Context.Get (c : Context) (key : String) : Option Value :=
  (c.find? (fun p => p.1 == key)).map (fun p => p.2)

/-- The operator type of `operator.go` is a string type. -/
abbrev Operator := String

/-- `Operator.IsValid` from `operator.go`: membership in the closed
operator set. -/
def Operator.IsValid (o : Operator) : Bool :=
  match o with
  | "==" | "!=" | "in" | "not_in" | ">" | ">=" | "<" | "<="
  | "contains" | "starts_with" | "ends_with" | "regex" => true
  | _ => false

/-- A single evaluation condition (`condition.go`). -/
structure Condition where
  Attribute : String
  Operator : Operator
  Value : Value
  Negate : Bool
deriving DecidableEq

/-- `Condition.Validate` from `condition.go`: non-empty attribute and a
recognised operator; `none` means the Go method returned `nil`. -/
def Condition.Validate (c : Condition) : Option GoError :=
  if c.Attribute = "" then some .invalidCondition
  else if ¬ Operator.IsValid c.Operator then some .invalidOperator
  else none

/-- An A/B test variant (flag source file). -/
structure Variant where
  Name : String
  Weight : Int
  Conditions : List Condition
deriving DecidableEq

/-- A feature flag (flag source file). -/
structure Flag where
  Name : String
  Enabled : Bool
  Rollout : Int
  RolloutKey : String
  Conditions : List Condition
  Variants : List Variant
  DefaultVariant : String
deriving DecidableEq

/-- `Flag.HasVariants`: `len(f.Variants) > 0`. -/
def Flag.HasVariants (f : Flag) : Bool :=
  f.Variants.length > 0

/-- `Flag.GetRolloutKey`: the configured key, defaulting to `user_id`. -/
def Flag.GetRolloutKey (f : Flag) : String :=
  if f.RolloutKey ≠ "" then f.RolloutKey else "user_id"

/-- Sum of the variant weights, as accumulated by the loop in
`Flag.Validate`. -/
def totalWeight (vs : List Variant) : Int :=
  vs.foldl (fun acc v => acc + v.Weight) 0

/-- First validation error among a list of conditions, in order
(the `for` loops over conditions in `Flag.Validate`). -/
def validateConditions : List Condition → Option GoError
  | [] => none
  | c :: cs =>
    match c.Validate with
    | some e => some e
    | none => validateConditions cs

/-- Per-variant validation of `Flag.Validate`: each weight in [0,100],
then the variant's own conditions, in declaration order. -/
def validateVariants : List Variant → Option GoError
  | [] => none
  | v :: vs =>
    if v.Weight < 0 ∨ v.Weight > 100 then some .invalidRollout
    else
      match validateConditions v.Conditions with
      | some e => some e
      | none => validateVariants vs

/-- `Flag.Validate` from the flag source file: non-empty name, rollout
in [0,100], all flag-level conditions valid, all variant weights in
[0,100] and variant conditions valid, and (when variants are present)
total weight at most 100. -/
def Flag.Validate (f : Flag) : Option GoError :=
  if f.Name = "" then some .invalidCondition
  else if f.Rollout < 0 ∨ f.Rollout > 100 then some .invalidRollout
  else
    match validateConditions f.Conditions with
    | some e => some e
    | none =>
      match validateVariants f.Variants with
      | some e => some e
      | none =>
        if f.Variants.length > 0 ∧ totalWeight f.Variants > 100 then
          some .invalidRollout
        else none

/-- View of `Except` as a sum, for deciding equality. -/
def exceptToSum : Except ε α → ε ⊕ α
  | .error e => .inl e
  | .ok a => .inr a

instance {ε α : Type} [DecidableEq ε] [DecidableEq α] : DecidableEq (Except ε α) :=
  fun a b =>
    decidable_of_iff (exceptToSum a = exceptToSum b)
      (by cases a <;> cases b <;> simp [exceptToSum])

/-- Type of the platform regex engine, `regexp.MatchString(pattern, s)`:
external to this repository (the spec calls the regex operator "a direct
pass-through to the platform's regex engine"), so the evaluator is
parametrised by it.  A malformed pattern yields an error. -/
abbrev RegexMatcher := String → String → Except GoError Bool

/-- The condition evaluator of the evaluator source file.  The Go struct
is empty and closes over the platform regex engine via the `regexp`
package; that external dependency is made an explicit field here. -/
structure conditionEvaluator where
  rmatch : RegexMatcher

/-- `newConditionEvaluator`, given the platform regex engine. -/
def newConditionEvaluator (rm : RegexMatcher) : conditionEvaluator :=
  ⟨rm⟩

/-- `toFloat64`: numeric coercion.  Ints convert; strings go through
`strconv.ParseFloat`; booleans and lists fail.  The parser below models
decimal forms `[-+]digits[.digits]` into `Rat` (float64 rounding and
exponent forms are not modelled; no claim under verification depends on
numeric comparison). -/
def parseDigitsAux : List Char → Nat → Option Nat
  | [], acc => some acc
  | c :: cs, acc =>
    if c.isDigit then parseDigitsAux cs (10 * acc + (c.toNat - 48)) else none

/-- Parse a non-empty all-digit character list into a `Nat`. -/
def parseDigits (cs : List Char) : Option Nat :=
  if cs.isEmpty then none else parseDigitsAux cs 0

/-- Decimal-string parsing standing in for `strconv.ParseFloat`. -/
def parseGoFloat (s : String) : Except GoError Rat :=
  let cs := s.data
  let signAndRest : Bool × List Char :=
    match cs with
    | '-' :: rest => (true, rest)
    | '+' :: rest => (false, rest)
    | _ => (false, cs)
  let body := signAndRest.2
  let parsed : Option Rat :=
    match body.splitOn '.' with
    | [ip] => (parseDigits ip).map (fun n => (n : Rat))
    | [ip, fp] =>
      match parseDigits ip, parseDigits fp with
      | some n, some m => some ((n : Rat) + (m : Rat) / ((10 : Rat) ^ fp.length))
      | _, _ => none
    | _ => none
  match parsed with
  | some q => .ok (if signAndRest.1 then -q else q)
  | none => .error (.errorString ("cannot parse " ++ s))

/-- `toFloat64` on the modelled value domain. -/
def conditionEvaluator.toFloat64 (_e : conditionEvaluator) : Value → Except GoError Rat
  | .scalar (.i n) => .ok (n : Rat)
  | .scalar (.s v) => parseGoFloat v
  | v => .error (.errorString ("cannot convert " ++ v.sprint ++ " to float64"))

/-- `evaluateEqual`: stringified comparison. -/
def conditionEvaluator.evaluateEqual (_e : conditionEvaluator) (ctxValue condValue : Value) : Bool :=
  ctxValue.sprint = condValue.sprint

/-- `evaluateIn`: membership by stringified comparison when the condition
value is a list (the Go `[]interface\x7b\x7d` and `[]string` branches coincide
on the modelled value domain); otherwise single-value equality. -/
def conditionEvaluator.evaluateIn (e : conditionEvaluator) (ctxValue condValue : Value) : Bool :=
  let ctxStr := ctxValue.sprint
  match condValue with
  | .list l => l.any (fun item => item.sprint = ctxStr)
  | _ => e.evaluateEqual ctxValue condValue

/-- `evaluateGreaterThan`: numeric comparison when both operands coerce,
else lexicographic string comparison (Go compares bytes; Lean compares
code points — identical on the ASCII data of every claim). -/
def conditionEvaluator.evaluateGreaterThan (e : conditionEvaluator) (ctxValue condValue : Value) (orEqual : Bool) : Bool :=
  match e.toFloat64 ctxValue, e.toFloat64 condValue with
  | .ok ctxNum, .ok condNum =>
    if orEqual then decide (ctxNum ≥ condNum) else decide (ctxNum > condNum)
  | _, _ =>
    let ctxStr := ctxValue.sprint
    let condStr := condValue.sprint
    if orEqual then decide (condStr ≤ ctxStr) else decide (condStr < ctxStr)

/-- `evaluateLessThan`: dual of `evaluateGreaterThan`. -/
def conditionEvaluator.evaluateLessThan (e : conditionEvaluator) (ctxValue condValue : Value) (orEqual : Bool) : Bool :=
  match e.toFloat64 ctxValue, e.toFloat64 condValue with
  | .ok ctxNum, .ok condNum =>
    if orEqual then decide (ctxNum ≤ condNum) else decide (ctxNum < condNum)
  | _, _ =>
    let ctxStr := ctxValue.sprint
    let condStr := condValue.sprint
    if orEqual then decide (ctxStr ≤ condStr) else decide (ctxStr < condStr)

/-- Substring test on character lists (`strings.Contains`). -/
def hasSubList (sub : List Char) : List Char → Bool
  | [] => sub.isEmpty
  | c :: cs => sub.isPrefixOf (c :: cs) || hasSubList sub cs

/-- `evaluateContains`: substring test on stringified operands. -/
def conditionEvaluator.evaluateContains (_e : conditionEvaluator) (ctxValue condValue : Value) : Bool :=
  hasSubList condValue.sprint.data ctxValue.sprint.data

/-- `evaluateStartsWith`. -/
def conditionEvaluator.evaluateStartsWith (_e : conditionEvaluator) (ctxValue condValue : Value) : Bool :=
  ctxValue.sprint.startsWith condValue.sprint

/-- `evaluateEndsWith`. -/
def conditionEvaluator.evaluateEndsWith (_e : conditionEvaluator) (ctxValue condValue : Value) : Bool :=
  ctxValue.sprint.endsWith condValue.sprint

/-- `evaluateRegex`: pass-through to the platform regex engine on
stringified operands. -/
def conditionEvaluator.evaluateRegex (e : conditionEvaluator) (ctxValue condValue : Value) : Except GoError Bool :=
  e.rmatch condValue.sprint ctxValue.sprint

/-- `evaluateOperator`: dispatch on the operator string; unknown
operators yield `ErrInvalidOperator`. -/
def conditionEvaluator.evaluateOperator (e : conditionEvaluator) (op : Operator) (ctxValue condValue : Value) : Except GoError Bool :=
  match op with
  | "==" => .ok (e.evaluateEqual ctxValue condValue)
  | "!=" => .ok (! e.evaluateEqual ctxValue condValue)
  | "in" => .ok (e.evaluateIn ctxValue condValue)
  | "not_in" => .ok (! e.evaluateIn ctxValue condValue)
  | ">" => .ok (e.evaluateGreaterThan ctxValue condValue false)
  | ">=" => .ok (e.evaluateGreaterThan ctxValue condValue true)
  | "<" => .ok (e.evaluateLessThan ctxValue condValue false)
  | "<=" => .ok (e.evaluateLessThan ctxValue condValue true)
  | "contains" => .ok (e.evaluateContains ctxValue condValue)
  | "starts_with" => .ok (e.evaluateStartsWith ctxValue condValue)
  | "ends_with" => .ok (e.evaluateEndsWith ctxValue condValue)
  | "regex" => e.evaluateRegex ctxValue condValue
  | _ => .error .invalidOperator

/-- `applyNegate`: invert the result when the negate flag is set. -/
def conditionEvaluator.applyNegate (_e : conditionEvaluator) (result negate : Bool) : Bool :=
  if negate then ! result else result

/-- `evaluate`: validate the condition; an absent attribute is a definite
non-match (still negated); otherwise dispatch on the operator and apply
negation. -/
def conditionEvaluator.evaluate (e : conditionEvaluator) (condition : Condition) (ctx : Context) : Except GoError Bool :=
  match condition.Validate with
  | some err => .error err
  | none =>
    match ctx.Get condition.Attribute with
    | none => .ok (e.applyNegate false condition.Negate)
    | some value =>
      match e.evaluateOperator condition.Operator value condition.Value with
      | .error err => .error err
      | .ok result => .ok (e.applyNegate result condition.Negate)

/-- `evaluateAll`: short-circuiting conjunction over the conditions in
list order. -/
def conditionEvaluator.evaluateAll (e : conditionEvaluator) : List Condition → Context → Except GoError Bool
  | [], _ => .ok true
  | cond :: rest, ctx =>
    match e.evaluate cond ctx with
    | .error err => .error err
    | .ok false => .ok false
    | .ok true => e.evaluateAll rest ctx

/-- UTF-8 encoding of one character, as `hasher.Write([]byte(s))` sees
the string's bytes in Go. -/
def utf8EncodeChar (c : Char) : List Nat :=
  let v := c.toNat
  if v < 0x80 then [v]
  else if v < 0x800 then
    [0xC0 ||| (v >>> 6), 0x80 ||| (v &&& 0x3F)]
  else if v < 0x10000 then
    [0xE0 ||| (v >>> 12), 0x80 ||| ((v >>> 6) &&& 0x3F), 0x80 ||| (v &&& 0x3F)]
  else
    [0xF0 ||| (v >>> 18), 0x80 ||| ((v >>> 12) &&& 0x3F),
     0x80 ||| ((v >>> 6) &&& 0x3F), 0x80 ||| (v &&& 0x3F)]

/-- The UTF-8 bytes of a string. -/
def stringBytes (s : String) : List Nat :=
  (s.data.map utf8EncodeChar).flatten

/-- FNV-1a 32-bit offset basis. -/
def fnvOffset32 : Nat := 2166136261

/-- FNV-1a 32-bit prime. -/
def fnvPrime32 : Nat := 16777619

/-- One FNV-1a step on a byte: xor then multiply, in `uint32`
arithmetic (explicit `% 2^32`). -/
def fnvStep (h b : Nat) : Nat :=
  ((h ^^^ b) * fnvPrime32) % 2 ^ 32

/-- The 32-bit FNV-1a fingerprint of a byte list (`fnv.New32a` fed the
whole string then `Sum32`). -/
def fnv1a32 (bytes : List Nat) : Nat :=
  bytes.foldl fnvStep fnvOffset32

/-- `FNVHasher.Hash` from `internal/hash/fnv.go`: the 32-bit FNV-1a
fingerprint of the string's bytes reduced modulo 100. -/
def FNVHash (s : String) : Nat :=
  fnv1a32 (stringBytes s) % 100

/-- The rollout-strategy interface of `rollout.go`. -/
structure RolloutStrategy where
  shouldRollout : Flag → Context → Except GoError Bool
  getVariant : Flag → Context → Except GoError String

namespace DefaultRolloutStrategy

/-- `DefaultRolloutStrategy.ShouldRollout` from `rollout.go`,
parametrised by the injected hasher (the Go struct's `hasher` field):
rollout ≥ 100 is always on, ≤ 0 always off, a missing rollout key is
conservatively off, otherwise the hash bucket of
`name ++ ":" ++ keyValue` is compared against the rollout percentage. -/
def ShouldRollout (hasher : String → Nat) (flag : Flag) (ctx : Context) : Except GoError Bool :=
  if flag.Rollout ≥ 100 then .ok true
  else if flag.Rollout ≤ 0 then .ok false
  else
    match ctx.Get flag.GetRolloutKey with
    | none => .ok false
    | some keyValue =>
      let hashKey := flag.Name ++ ":" ++ keyValue.sprint
      let hashValue := hasher hashKey
      .ok (decide ((hashValue : Int) < flag.Rollout))

/-- The cumulative-weight walk in `DefaultRolloutStrategy.GetVariant`:
starting from accumulator `cumulative`, add each weight in declaration
order and select the first variant whose running total exceeds the hash
bucket. -/
def pickVariant (hashValue : Int) : List Variant → Int → Option String
  | [], _ => none
  | v :: vs, cumulative =>
    let c := cumulative + v.Weight
    if hashValue < c then some v.Name else pickVariant hashValue vs c

/-- `DefaultRolloutStrategy.GetVariant` from `rollout.go`: no variants
or missing rollout key yield the default variant; otherwise the bucket
of `name ++ ":variant:" ++ keyValue` selects by cumulative weight, with
fall-through to the default variant. -/
def GetVariant (hasher : String → Nat) (flag : Flag) (ctx : Context) : Except GoError String :=
  if flag.HasVariants = false then .ok flag.DefaultVariant
  else
    match ctx.Get flag.GetRolloutKey with
    | none => .ok flag.DefaultVariant
    | some keyValue =>
      let hashKey := flag.Name ++ ":variant:" ++ keyValue.sprint
      let hashValue := hasher hashKey
      .ok ((pickVariant (hashValue : Int) flag.Variants 0).getD flag.DefaultVariant)

end DefaultRolloutStrategy

/-- `NewDefaultRolloutStrategy` packaged as the interface record. -/
def NewDefaultRolloutStrategy (hasher : String → Nat) : RolloutStrategy :=
  { shouldRollout := DefaultRolloutStrategy.ShouldRollout hasher
    getVariant := DefaultRolloutStrategy.GetVariant hasher }

/-- The flag store of `store.go`.  The Go `map[string]*Flag` is an
association list with unique keys; the `sync.RWMutex` serialises the
operations modelled here as sequential state passing. -/
structure Store where
  flags : List (String × Flag)
  evaluator : conditionEvaluator
  rolloutStrategy : RolloutStrategy

/-- `NewStore`: empty flag map, fresh condition evaluator (closing over
the platform regex engine), default FNV-based rollout strategy. -/
def NewStore (rm : RegexMatcher) : Store :=
  { flags := []
    evaluator := newConditionEvaluator rm
    rolloutStrategy := NewDefaultRolloutStrategy FNVHash }

/-- Map insert: overwrite the entry with the flag's name, or append. -/
def insertFlag : List (String × Flag) → Flag → List (String × Flag)
  | [], f => [(f.Name, f)]
  | (n, g) :: rest, f =>
    if n = f.Name then (n, f) :: rest else (n, g) :: insertFlag rest f

/-- `Store.AddFlag`: validate, and only on success insert/overwrite.
The returned pair is (the Go error value, the store state after the
call). -/
def Store.AddFlag (s : Store) (flag : Flag) : Option GoError × Store :=
  match flag.Validate with
  | some err => (some err, s)
  | none => (none, { s with flags := insertFlag s.flags flag })

/-- `Store.AddFlags`: add in order, stopping at the first error. -/
def Store.AddFlags (s : Store) : List Flag → Option GoError × Store
  | [] => (none, s)
  | flag :: rest =>
    match s.AddFlag flag with
    | (some err, s') => (some err, s')
    | (none, s') => s'.AddFlags rest

/-- `Store.RemoveFlag`: map delete. -/
def Store.RemoveFlag (s : Store) (name : String) : Store :=
  { s with flags := s.flags.filter (fun p => p.1 ≠ name) }

/-- `Store.GetFlag`: lookup or `ErrFlagNotFound`. -/
def Store.GetFlag (s : Store) (name : String) : Except GoError Flag :=
  match (s.flags.find? (fun p => p.1 == name)).map (fun p => p.2) with
  | some flag => .ok flag
  | none => .error .flagNotFound

/-- `Store.ListFlags`: the flag names. -/
def Store.ListFlags (s : Store) : List String :=
  s.flags.map (fun p => p.1)

/-- `Store.Clear`: empty the map. -/
def Store.Clear (s : Store) : Store :=
  { s with flags := [] }

/-- `Store.Size`: number of flags. -/
def Store.Size (s : Store) : Nat :=
  s.flags.length

/-- `Store.IsEnabledWithError`: resolve the flag; disabled or
variant-bearing flags report false; then flag-level conditions, then the
rollout strategy.  The pair is (the Go bool, the Go error). -/
def Store.IsEnabledWithError (s : Store) (name : String) (ctx : Context) : Bool × Option GoError :=
  match s.GetFlag name with
  | .error err => (false, some err)
  | .ok flag =>
    if flag.Enabled = false then (false, none)
    else if flag.HasVariants then (false, none)
    else
      match s.evaluator.evaluateAll flag.Conditions ctx with
      | .error err => (false, some err)
      | .ok mtch =>
        if mtch = false then (false, none)
        else
          match s.rolloutStrategy.shouldRollout flag ctx with
          | .error err => (false, some err)
          | .ok shouldRollout => (shouldRollout, none)

/-- `Store.IsEnabled`: the error-suppressing form (`result, _ := ...`). -/
def Store.IsEnabled (s : Store) (name : String) (ctx : Context) : Bool :=
  (s.IsEnabledWithError name ctx).1

/-- The variant-locating loop at the end of `Store.GetVariantWithError`:
find the variant with the selected name, check its conditions if any,
fall through to the default variant. -/
def Store.findVariant (s : Store) (flag : Flag) (ctx : Context) (variantName : String) : List Variant → String × Bool × Option GoError
  | [] => (flag.DefaultVariant, false, none)
  | v :: vs =>
    if v.Name = variantName then
      if v.Conditions.length > 0 then
        match s.evaluator.evaluateAll v.Conditions ctx with
        | .error err => ("", false, some err)
        | .ok mtch =>
          if mtch = false then (flag.DefaultVariant, false, none)
          else (v.Name, true, none)
      else (v.Name, true, none)
    else s.findVariant flag ctx variantName vs

/-- `Store.GetVariantWithError`: resolve the flag; disabled or
unmatched flag-level conditions yield the default variant; a flag with
no variants becomes a synthetic on/off flag via `shouldRollout`;
otherwise the strategy picks a name and the variant list is searched.
The triple is (the Go string, bool, error). -/
def Store.GetVariantWithError (s : Store) (name : String) (ctx : Context) : String × Bool × Option GoError :=
  match s.GetFlag name with
  | .error err => ("", false, some err)
  | .ok flag =>
    if flag.Enabled = false then (flag.DefaultVariant, false, none)
    else
      match s.evaluator.evaluateAll flag.Conditions ctx with
      | .error err => ("", false, some err)
      | .ok mtch =>
        if mtch = false then (flag.DefaultVariant, false, none)
        else if flag.HasVariants = false then
          match s.rolloutStrategy.shouldRollout flag ctx with
          | .error err => ("", false, some err)
          | .ok shouldRollout =>
            if shouldRollout then ("on", true, none) else ("off", false, none)
        else
          match s.rolloutStrategy.getVariant flag ctx with
          | .error err => ("", false, some err)
          | .ok variantName => s.findVariant flag ctx variantName flag.Variants

/-- `Store.GetVariant`: the error-suppressing form
(`variant, enabled, _ := ...`). -/
def Store.GetVariant (s : Store) (name : String) (ctx : Context) : String × Bool :=
  ((s.GetVariantWithError name ctx).1, (s.GetVariantWithError name ctx).2.1)

/-- Result of a Go call that may also abort with a runtime panic
(index out of range), which is distinct from a returned `error`. -/
inductive GoResult (α : Type) where
  | ok (a : α)
  | err (e : GoError)
  | panicked
deriving DecidableEq

/-- Nanoseconds in a minute (`time.Minute`). -/
def minuteNs : Int := 60 * 1000000000

/-- Nanoseconds in an hour (`time.Hour`). -/
def hourNs : Int := 60 * minuteNs

/-- The switchback rollout strategy of the switchback source file.
Instants are `Int` nanoseconds (Go `time.Time` differences are `int64`
nanosecond `time.Duration`s); the injected `timeProvider` is modelled by
the instant `now` it reports.  Division of durations is Go `int64`
division, i.e. truncation toward zero (`Int.tdiv`); the model assumes a
positive `intervalMinutes` (Go would panic on a zero interval). -/
structure SwitchbackRolloutStrategy where
  intervalMinutes : Int
  startTime : Int
  swapDaily : Bool
  now : Int

/-- `GetCurrentInterval`: `int(elapsed / intervalDuration)` with
truncating `int64` division. -/
def SwitchbackRolloutStrategy.GetCurrentInterval (s : SwitchbackRolloutStrategy) : Int :=
  let elapsed := s.now - s.startTime
  let intervalDuration := s.intervalMinutes * minuteNs
  elapsed.tdiv intervalDuration

/-- `GetCurrentDay`: `int(elapsed / (24 * time.Hour))`. -/
def SwitchbackRolloutStrategy.GetCurrentDay (s : SwitchbackRolloutStrategy) : Int :=
  let elapsed := s.now - s.startTime
  elapsed.tdiv (24 * hourNs)

/-- Go slice indexing `l[i]` with an `int` index: out-of-range
(including negative) indices panic. -/
def goIndex (l : List Variant) (i : Int) : Option Variant :=
  if i < 0 then none else l[i.toNat]?

/-- `SwitchbackRolloutStrategy.ShouldRollout`: always true. -/
def SwitchbackRolloutStrategy.ShouldRollout (_s : SwitchbackRolloutStrategy) (_flag : Flag) (_ctx : Context) : Except GoError Bool :=
  .ok true

/-- `SwitchbackRolloutStrategy.GetVariant`: variant index is the current
interval modulo the variant count (Go `%`, i.e. `Int.tmod`), reversed on
odd days when daily swap is enabled; the context is ignored.  Indexing
`flag.Variants[variantIndex]` panics when the index is negative. -/
def SwitchbackRolloutStrategy.GetVariant (s : SwitchbackRolloutStrategy) (flag : Flag) (_ctx : Context) : GoResult String :=
  if flag.HasVariants = false then .ok flag.DefaultVariant
  else
    let intervalNum := s.GetCurrentInterval
    let dayNum := s.GetCurrentDay
    let numVariants : Int := flag.Variants.length
    if numVariants = 0 then .ok flag.DefaultVariant
    else
      let variantIndex := intervalNum.tmod numVariants
      let variantIndex :=
        if s.swapDaily ∧ dayNum.tmod 2 = 1 then (numVariants - 1) - variantIndex
        else variantIndex
      match goIndex flag.Variants variantIndex with
      | some v => .ok v.Name
      | none => .panicked

/-- Running cumulative weight totals of a variant list starting from
`acc`, in declaration order, as the spec describes the walk ("walks the
variants in declaration order accumulating weights"). -/
def cumulativeWeights (acc : Int) : List Variant → List Int
  | [] => []
  | v :: vs => (acc + v.Weight) :: cumulativeWeights (acc + v.Weight) vs

/-- Spec-side selection: the first variant whose cumulative weight
exceeds the bucket, `none` when no cumulative weight exceeds it.  Stated
from the spec wording, to be compared with the source's `pickVariant`. -/
def specSelectVariant (bucket : Int) (vs : List Variant) : Option String :=
  ((vs.zip (cumulativeWeights 0 vs)).find? (fun p => decide (bucket < p.2))).map
    (fun p => p.1.Name)

/-- The validity predicate the spec ascribes to `Flag.Validate`:
non-empty name, rollout in [0,100], every condition (including each
variant's) individually valid, every variant weight in [0,100], and
when variants are present a total weight of at most 100. -/
def FlagValid (f : Flag) : Prop :=
  f.Name ≠ "" ∧ 0 ≤ f.Rollout ∧ f.Rollout ≤ 100
  ∧ (∀ c ∈ f.Conditions, c.Validate = none)
  ∧ (∀ v ∈ f.Variants, 0 ≤ v.Weight ∧ v.Weight ≤ 100 ∧ ∀ c ∈ v.Conditions, c.Validate = none)
  ∧ (f.Variants ≠ [] → totalWeight f.Variants ≤ 100)

/-- The public store operations, for stating the reachability
invariant. -/
inductive StoreOp where
  | addFlag (f : Flag)
  | addFlags (fs : List Flag)
  | removeFlag (n : String)
  | clear
  | isEnabled (n : String) (ctx : Context)
  | isEnabledWithError (n : String) (ctx : Context)
  | getVariant (n : String) (ctx : Context)
  | getVariantWithError (n : String) (ctx : Context)

/-- State transition of one store operation.  The evaluation operations
(`IsEnabled`, `GetVariant` and their error-returning forms) are
functions out of the store in the Go source — they only read the flag
map under a read lock — so they leave the state unchanged. -/
def applyOp (s : Store) : StoreOp → Store
  | .addFlag f => (s.AddFlag f).2
  | .addFlags fs => (s.AddFlags fs).2
  | .removeFlag n => s.RemoveFlag n
  | .clear => s.Clear
  | .isEnabled _ _ => s
  | .isEnabledWithError _ _ => s
  | .getVariant _ _ => s
  | .getVariantWithError _ _ => s

/-- Every flag held by the store passes `Flag.Validate`. -/
def StoreValid (s : Store) : Prop :=
  ∀ p ∈ s.flags, Flag.Validate p.2 = none

/-- Modelled from the spec: the platform regex engine
(`regexp.MatchString`), which is external to this repository (the spec
calls the regex operator "a direct pass-through to the platform's regex
engine", and "a malformed pattern surfaces as an error rather than a
false result").  The malformed pattern `"("` yields a parse error;
other patterns are modelled as literal-equality matches, since no claim
under verification depends on regex match semantics. -/
def goRegexEngine : RegexMatcher := fun pattern s =>
  if pattern = "(" then .error (.errorString "error parsing regexp: missing closing )")
  else .ok (pattern = s)

/-- Concrete evaluator instance for witnesses. -/
def eval0 : conditionEvaluator := newConditionEvaluator goRegexEngine

/-- Concrete rollout flag for the C1 witness: 50% rollout, default
rollout key. -/
def rolloutFlag : Flag :=
  { Name := "f3", Enabled := true, Rollout := 50, RolloutKey := ""
    Conditions := [], Variants := [], DefaultVariant := "" }

/-- Concrete context carrying `user_id = "123"`. -/
def ctx123 : Context := [("user_id", .scalar (.s "123"))]

/-- Concrete variant flag for the C2 witness: two 50% variants. -/
def weightFlag : Flag :=
  { Name := "wf", Enabled := true, Rollout := 0, RolloutKey := ""
    Conditions := []
    Variants := [⟨"x", 50, []⟩, ⟨"y", 50, []⟩]
    DefaultVariant := "ctrl" }

/-- Concrete context carrying `user_id = "u1"`. -/
def ctxU1 : Context := [("user_id", .scalar (.s "u1"))]

/-- A flag with out-of-range rollout 150, for the C5 witness. -/
def badFlag : Flag :=
  { Name := "bad", Enabled := true, Rollout := 150, RolloutKey := ""
    Conditions := [], Variants := [], DefaultVariant := "" }

/-- A fresh store over the platform regex engine. -/
def store0 : Store := NewStore goRegexEngine

/-- A valid flag whose only condition is the malformed regex pattern
`"("`: it passes `Flag.Validate` (the operator is recognised), yet
evaluating it yields a regex compilation error at run time. -/
def regexFlag : Flag :=
  { Name := "rx", Enabled := true, Rollout := 100, RolloutKey := ""
    Conditions := [⟨"x", "regex", .scalar (.s "("), false⟩]
    Variants := [], DefaultVariant := "control" }

/-- Store holding `regexFlag`, reached through the public `AddFlag`. -/
def rxStore : Store := (store0.AddFlag regexFlag).2

/-- Context for the regex flag: the attribute is present, so the regex
operator runs and errors. -/
def rxCtx : Context := [("x", .scalar (.s "abc"))]

/-- Variant flag whose weights sum to 60 < 100 and whose default
variant name `control` is also the name of its first variant. -/
def abFlag : Flag :=
  { Name := "ab", Enabled := true, Rollout := 0, RolloutKey := ""
    Conditions := []
    Variants := [⟨"control", 30, []⟩, ⟨"b", 30, []⟩]
    DefaultVariant := "control" }

/-- Store holding `abFlag`. -/
def abStore : Store := (store0.AddFlag abFlag).2

/-- Context with `user_id = "2"`, whose variant bucket for flag `ab` is
85, in the unallocated remainder above the total weight 60. -/
def ctx2 : Context := [("user_id", .scalar (.s "2"))]

/-- Same shape as `abFlag` but with a default variant name that is not
among the variant names. -/
def abFlag2 : Flag :=
  { Name := "ab", Enabled := true, Rollout := 0, RolloutKey := ""
    Conditions := []
    Variants := [⟨"x", 30, []⟩, ⟨"y", 30, []⟩]
    DefaultVariant := "fallback" }

/-- Store holding `abFlag2`. -/
def abStore2 : Store := (store0.AddFlag abFlag2).2

/-- Concrete two-variant flag `[A,B]` for the switchback witnesses. -/
def sbFlag : Flag :=
  { Name := "sb", Enabled := true, Rollout := 0, RolloutKey := ""
    Conditions := []
    Variants := [⟨"A", 50, []⟩, ⟨"B", 50, []⟩]
    DefaultVariant := "A" }

/-- Switchback strategy whose time source reports one minute before the
start time. -/
def sbNeg1 : SwitchbackRolloutStrategy :=
  { intervalMinutes := 30, startTime := 0, swapDaily := false
    now := -60000000000 }

/-- Switchback strategy whose time source reports 45 minutes before the
start time (beyond one full interval). -/
def sbNeg45 : SwitchbackRolloutStrategy :=
  { intervalMinutes := 30, startTime := 0, swapDaily := false
    now := -2700000000000 }

/-- Switchback strategy observed exactly at its start time. -/
def sbAtStart : SwitchbackRolloutStrategy :=
  { intervalMinutes := 30, startTime := 0, swapDaily := false, now := 0 }

/-- A valid flag for the registry-invariant witness. -/
def goodFlag : Flag :=
  { Name := "g", Enabled := true, Rollout := 100, RolloutKey := ""
    Conditions := [⟨"country", "==", .scalar (.s "US"), false⟩]
    Variants := [], DefaultVariant := "" }

/-- Conditions for the C3 witness: both match `ctxUS`. -/
def condCountry : Condition := ⟨"country", "==", .scalar (.s "US"), false⟩

/-- Second condition for the C3 witness. -/
def condPlan : Condition := ⟨"plan", "==", .scalar (.s "premium"), false⟩

/-- Context matching both C3 witness conditions. -/
def ctxUS : Context :=
  [("country", .scalar (.s "US")), ("plan", .scalar (.s "premium"))]

/-- Negated condition on an attribute absent from the empty context, for
the C4 witness. -/
def condNegated : Condition := ⟨"country", "==", .scalar (.s "US"), true⟩

/-! Helper lemmas shared by the claim theorems. -/

/-- The FNV bucket is always in [0,100). -/
theorem FNVHash_lt_100 (s : String) : FNVHash s < 100 :=
  Nat.mod_lt _ (by norm_num)

/-- A flag has no variants exactly when its variant list is empty. -/
theorem hasVariants_false_iff (f : Flag) : f.HasVariants = false ↔ f.Variants = [] := by
  cases h : f.Variants with
  | nil => simp [Flag.HasVariants, h]
  | cons v vs => simp [Flag.HasVariants, h]

/-- The source's cumulative-weight walk agrees with the spec-worded
selection (first variant of the zip with the running totals whose total
exceeds the bucket). -/
theorem pickVariant_eq_specSelect (bucket : Int) (vs : List Variant) (acc : Int) :
    DefaultRolloutStrategy.pickVariant bucket vs acc =
      ((vs.zip (cumulativeWeights acc vs)).find? (fun p => decide (bucket < p.2))).map
        (fun p => p.1.Name) := by
  induction vs generalizing acc with
  | nil => simp [DefaultRolloutStrategy.pickVariant, cumulativeWeights]
  | cons v vs ih =>
    simp only [DefaultRolloutStrategy.pickVariant, cumulativeWeights,
      List.zip_cons_cons, List.find?]
    by_cases h : bucket < acc + v.Weight
    · simp [h]
    · simp [h, ih (acc + v.Weight), List.zip]

/-- `evaluateAll` evaluates a valid condition on a matching context to
its operator result with negation applied (unfolding lemma used by the
C3 two-condition property). -/
theorem evaluateAll_cons (e : conditionEvaluator) (c : Condition) (cs : List Condition) (ctx : Context) :
    e.evaluateAll (c :: cs) ctx =
      match e.evaluate c ctx with
      | .error err => .error err
      | .ok false => .ok false
      | .ok true => e.evaluateAll cs ctx := by
  cases h : e.evaluate c ctx with
  | error err => simp [conditionEvaluator.evaluateAll, h]
  | ok b => cases b <;> simp [conditionEvaluator.evaluateAll, h]

/-! The claims. -/

/-- C1: for every flag and context, the deterministic-hash strategy's
`ShouldRollout` returns true whenever `flag.Rollout ≥ 100`, false
whenever `flag.Rollout ≤ 0`, false when the rollout key is absent from
the context, and otherwise true iff
`hash(flag.Name ++ ":" ++ stringify(keyValue)) < flag.Rollout`, where
the hash is the FNV-1a 32-bit fingerprint reduced modulo 100, so the
bucket is always in [0,100). -/
theorem C1_shouldRollout_buckets (flag : Flag) (ctx : Context) :
    (100 ≤ flag.Rollout →
      DefaultRolloutStrategy.ShouldRollout FNVHash flag ctx = .ok true)
  ∧ (flag.Rollout ≤ 0 →
      DefaultRolloutStrategy.ShouldRollout FNVHash flag ctx = .ok false)
  ∧ (0 < flag.Rollout → flag.Rollout < 100 →
      Context.Get ctx flag.GetRolloutKey = none →
      DefaultRolloutStrategy.ShouldRollout FNVHash flag ctx = .ok false)
  ∧ (∀ v, 0 < flag.Rollout → flag.Rollout < 100 →
      Context.Get ctx flag.GetRolloutKey = some v →
      DefaultRolloutStrategy.ShouldRollout FNVHash flag ctx =
        .ok (decide ((FNVHash (flag.Name ++ ":" ++ v.sprint) : Int) < flag.Rollout)))
  ∧ (∀ s, FNVHash s < 100) := by
  refine ⟨?_, ?_, ?_, ?_, fun s => FNVHash_lt_100 s⟩
  · intro h
    simp [DefaultRolloutStrategy.ShouldRollout, h]
  · intro h
    have h' : ¬ (100 ≤ flag.Rollout) := by omega
    simp [DefaultRolloutStrategy.ShouldRollout, h, h']
  · intro h1 h2 hget
    have hn100 : ¬ (100 ≤ flag.Rollout) := by omega
    have hn0 : ¬ (flag.Rollout ≤ 0) := by omega
    simp [DefaultRolloutStrategy.ShouldRollout, hn100, hn0, hget]
  · intro v h1 h2 hget
    have hn100 : ¬ (100 ≤ flag.Rollout) := by omega
    have hn0 : ¬ (flag.Rollout ≤ 0) := by omega
    simp [DefaultRolloutStrategy.ShouldRollout, hn100, hn0, hget]

/-- C1 witness: flag `f3` with 50% rollout and context
`user_id = "123"`; the bucket of `"f3:123"` is 8 < 50, so the flag is
on. -/
theorem C1_shouldRollout_buckets_witness :
    DefaultRolloutStrategy.ShouldRollout FNVHash rolloutFlag ctx123 = .ok true := by
  have h := (C1_shouldRollout_buckets rolloutFlag ctx123).2.2.2.1
    (.scalar (.s "123")) (by decide) (by decide) (by decide)
  rw [h]
  decide

/-- C2: for every flag and context, the deterministic-hash strategy's
`GetVariant` returns the default variant when the flag has no variants
or the rollout key is absent; otherwise it computes the bucket of
`flag.Name ++ ":variant:" ++ stringify(keyValue)`, walks the variants in
declaration order accumulating weights, returns the name of the first
variant whose cumulative weight exceeds the bucket, and falls through to
the default variant when no cumulative weight exceeds the bucket. -/
theorem C2_getVariant_cumulative (flag : Flag) (ctx : Context) :
    (flag.Variants = [] →
      DefaultRolloutStrategy.GetVariant FNVHash flag ctx = .ok flag.DefaultVariant)
  ∧ (Context.Get ctx flag.GetRolloutKey = none →
      DefaultRolloutStrategy.GetVariant FNVHash flag ctx = .ok flag.DefaultVariant)
  ∧ (∀ v, Context.Get ctx flag.GetRolloutKey = some v →
      DefaultRolloutStrategy.GetVariant FNVHash flag ctx =
        .ok ((specSelectVariant
              (FNVHash (flag.Name ++ ":variant:" ++ v.sprint) : Int)
              flag.Variants).getD flag.DefaultVariant)) := by
  refine ⟨?_, ?_, ?_⟩
  · intro h
    have hv : flag.HasVariants = false := (hasVariants_false_iff flag).mpr h
    simp [DefaultRolloutStrategy.GetVariant, hv]
  · intro hget
    by_cases hv : flag.HasVariants = false
    · simp [DefaultRolloutStrategy.GetVariant, hv]
    · simp only [Bool.not_eq_false] at hv
      simp [DefaultRolloutStrategy.GetVariant, hv, hget]
  · intro v hget
    by_cases hv : flag.HasVariants = false
    · have hnil : flag.Variants = [] := (hasVariants_false_iff flag).mp hv
      simp [DefaultRolloutStrategy.GetVariant, hv, specSelectVariant, hnil,
        cumulativeWeights]
    · simp only [Bool.not_eq_false] at hv
      simp [DefaultRolloutStrategy.GetVariant, hv, hget, specSelectVariant,
        pickVariant_eq_specSelect]

/-- C2 witness: flag `wf` with variants `x:50, y:50` and context
`user_id = "u1"`; the bucket of `"wf:variant:u1"` is 73, the first
cumulative weight exceeding 73 is 100 at variant `y`. -/
theorem C2_getVariant_cumulative_witness :
    DefaultRolloutStrategy.GetVariant FNVHash weightFlag ctxU1 = .ok "y" := by
  have h := (C2_getVariant_cumulative weightFlag ctxU1).2.2
    (.scalar (.s "u1")) (by decide)
  rw [h]
  decide

/-- C3: `evaluateAll` is a short-circuiting conjunction — the empty list
evaluates to true, a non-empty list evaluates its head first and the
first false or error terminates evaluation immediately with that result,
and on a two-condition list `[A,B]` the result is true iff both
conditions individually evaluate true. -/
theorem C3_evaluateAll_conjunction (e : conditionEvaluator) (ctx : Context) :
    (e.evaluateAll [] ctx = .ok true)
  ∧ (∀ c cs, e.evaluateAll (c :: cs) ctx =
      match e.evaluate c ctx with
      | .error err => .error err
      | .ok false => .ok false
      | .ok true => e.evaluateAll cs ctx)
  ∧ (∀ A B, e.evaluateAll [A, B] ctx = .ok true ↔
      (e.evaluate A ctx = .ok true ∧ e.evaluate B ctx = .ok true)) := by
  refine ⟨rfl, fun c cs => evaluateAll_cons e c cs ctx, ?_⟩
  intro A B
  rw [evaluateAll_cons, evaluateAll_cons]
  cases hA : e.evaluate A ctx with
  | error err => simp [hA]
  | ok a =>
    cases a with
    | false => simp
    | true =>
      cases hB : e.evaluate B ctx with
      | error err => simp [conditionEvaluator.evaluateAll]
      | ok b => cases b <;> simp [conditionEvaluator.evaluateAll]

/-- C3 witness: both concrete conditions match the context, so the
two-condition conjunction evaluates to true. -/
theorem C3_evaluateAll_conjunction_witness :
    eval0.evaluateAll [condCountry, condPlan] ctxUS = .ok true := by
  exact ((C3_evaluateAll_conjunction eval0 ctxUS).2.2 condCountry condPlan).mpr
    ⟨by decide, by decide⟩

/-- C4: a valid condition whose attribute is absent from the context
evaluates without error to a definite non-match with negation still
applied: false when `Negate` is unset, true when it is set (i.e. the
result is exactly the `Negate` field). -/
theorem C4_missing_attribute_negate (e : conditionEvaluator) (c : Condition) (ctx : Context)
    (hvalid : c.Validate = none) (habs : Context.Get ctx c.Attribute = none) :
    e.evaluate c ctx = .ok c.Negate := by
  cases hneg : c.Negate <;>
    simp [conditionEvaluator.evaluate, hvalid, habs,
      conditionEvaluator.applyNegate, hneg]

/-- C4 witness: the negated condition on attribute `country`, evaluated
against the empty context, yields true. -/
theorem C4_missing_attribute_negate_witness :
    eval0.evaluate condNegated [] = .ok true := by
  exact C4_missing_attribute_negate eval0 condNegated [] (by decide) (by decide)

/-- `validateConditions` succeeds exactly when every condition in the
list validates. -/
theorem validateConditions_none_iff (cs : List Condition) :
    validateConditions cs = none ↔ ∀ c ∈ cs, c.Validate = none := by
  induction cs with
  | nil => simp [validateConditions]
  | cons c cs ih =>
    cases h : c.Validate with
    | some e => simp [validateConditions, h]
    | none => simp [validateConditions, h, ih]

/-- `validateVariants` succeeds exactly when every variant has a weight
in [0,100] and valid conditions. -/
theorem validateVariants_none_iff (vs : List Variant) :
    validateVariants vs = none ↔
      ∀ v ∈ vs, 0 ≤ v.Weight ∧ v.Weight ≤ 100 ∧ ∀ c ∈ v.Conditions, c.Validate = none := by
  induction vs with
  | nil => simp [validateVariants]
  | cons v vs ih =>
    by_cases hw : v.Weight < 0 ∨ v.Weight > 100
    · simp only [validateVariants, if_pos hw]
      constructor
      · intro h; cases h
      · intro h
        have := h v (by simp)
        omega
    · simp only [validateVariants, if_neg hw]
      cases hc : validateConditions v.Conditions with
      | some e =>
        simp only []
        constructor
        · intro h; cases h
        · intro h
          have hv := h v (by simp)
          have := (validateConditions_none_iff v.Conditions).mpr hv.2.2
          rw [this] at hc
          cases hc
      | none =>
        have hcs := (validateConditions_none_iff v.Conditions).mp hc
        simp only [ih, List.mem_cons]
        constructor
        · intro h w hw'
          rcases hw' with h1 | h2
          · subst h1; exact ⟨by omega, by omega, hcs⟩
          · exact h w h2
        · intro h w hw'
          exact h w (Or.inr hw')

/-- `Flag.Validate` succeeds exactly on the spec's validity predicate. -/
theorem flagValidate_none_iff (f : Flag) :
    f.Validate = none ↔ FlagValid f := by
  unfold Flag.Validate FlagValid
  by_cases hn : f.Name = ""
  · simp [hn]
  · by_cases hr : f.Rollout < 0 ∨ f.Rollout > 100
    · simp only [if_neg hn, if_pos hr]
      constructor
      · intro h; cases h
      · intro h; omega
    · simp only [if_neg hn, if_neg hr]
      cases hc : validateConditions f.Conditions with
      | some e =>
        simp only []
        constructor
        · intro h; cases h
        · intro h
          have := (validateConditions_none_iff f.Conditions).mpr h.2.2.2.1
          rw [this] at hc
          cases hc
      | none =>
        cases hv : validateVariants f.Variants with
        | some e =>
          simp only []
          constructor
          · intro h; cases h
          · intro h
            have := (validateVariants_none_iff f.Variants).mpr h.2.2.2.2.1
            rw [this] at hv
            cases hv
        | none =>
          have hcs := (validateConditions_none_iff f.Conditions).mp hc
          have hvs := (validateVariants_none_iff f.Variants).mp hv
          by_cases ht : f.Variants.length > 0 ∧ totalWeight f.Variants > 100
          · simp only [if_pos ht]
            constructor
            · intro h; cases h
            · intro h
              have := h.2.2.2.2.2 (by
                intro hne
                rw [hne] at ht
                simp at ht)
              omega
          · simp only [if_neg ht]
            constructor
            · intro _
              refine ⟨hn, by omega, by omega, hcs, hvs, ?_⟩
              intro hne
              rcases Decidable.not_and_iff_or_not.mp ht with h1 | h2
              · exact absurd (List.length_pos.mpr hne) h1
              · omega
            · intro _; trivial

/-- Looking up a flag's name right after `insertFlag` finds the inserted
flag. -/
theorem insertFlag_find (l : List (String × Flag)) (f : Flag) :
    ((insertFlag l f).find? (fun p => p.1 == f.Name)).map (fun p => p.2) = some f := by
  induction l with
  | nil => simp [insertFlag]
  | cons p rest ih =>
    rcases p with ⟨n, g⟩
    by_cases h : n = f.Name
    · simp [insertFlag, h]
    · have hne : (n == f.Name) = false := by simp [h]
      simp only [insertFlag, if_neg h, List.find?, hne]
      exact ih

/-- C5: `AddFlag` returns exactly the flag's validation error;
validation succeeds exactly on the spec's validity predicate (non-empty
name, rollout in [0,100], all conditions including nested variant
conditions valid, variant weights in [0,100] with total at most 100); a
validation failure leaves the registry state (hence the flag count)
unchanged — in particular a flag with rollout 150 is rejected with a
validation error; and on success the flag is inserted, overwriting any
existing flag of the same name, and is immediately retrievable. -/
theorem C5_addFlag_validates (s : Store) (f : Flag) :
    ((s.AddFlag f).1 = f.Validate)
  ∧ (f.Validate = none ↔ FlagValid f)
  ∧ (∀ e, f.Validate = some e → s.AddFlag f = (some e, s))
  ∧ (f.Rollout = 150 →
      (∃ e, (s.AddFlag f).1 = some e) ∧ (s.AddFlag f).2 = s ∧ (s.AddFlag f).2.Size = s.Size)
  ∧ (f.Validate = none →
      (s.AddFlag f).2.flags = insertFlag s.flags f ∧ (s.AddFlag f).2.GetFlag f.Name = .ok f) := by
  refine ⟨?_, flagValidate_none_iff f, ?_, ?_, ?_⟩
  · cases h : f.Validate <;> simp [Store.AddFlag, h]
  · intro e he
    simp [Store.AddFlag, he]
  · intro h150
    have hsome : ∃ e, f.Validate = some e := by
      by_cases hn : f.Name = ""
      · exact ⟨.invalidCondition, by simp [Flag.Validate, hn]⟩
      · exact ⟨.invalidRollout, by simp [Flag.Validate, hn, h150]⟩
    obtain ⟨e, he⟩ := hsome
    refine ⟨⟨e, ?_⟩, ?_, ?_⟩ <;> simp [Store.AddFlag, he]
  · intro hok
    constructor
    · simp [Store.AddFlag, hok]
    · simp [Store.AddFlag, hok, Store.GetFlag, insertFlag_find]

/-- C5 witness: adding the rollout-150 flag to the fresh store fails
with the rollout validation error and leaves the store (of size 0)
unchanged. -/
theorem C5_addFlag_validates_witness :
    (store0.AddFlag badFlag).1 = some GoError.invalidRollout
  ∧ (store0.AddFlag badFlag).2 = store0
  ∧ (store0.AddFlag badFlag).2.Size = 0 := by
  refine ⟨?_, ((C5_addFlag_validates store0 badFlag).2.2.2.1 rfl).2.1, ?_⟩
  · rw [(C5_addFlag_validates store0 badFlag).1]
    decide
  · rw [((C5_addFlag_validates store0 badFlag).2.2.2.1 rfl).2.1]
    rfl

/-- When the variant-locating loop surfaces an error, the accompanying
name and enabled values are the zero values `("", false)`. -/
theorem findVariant_error (s : Store) (flag : Flag) (ctx : Context) (vn : String) (vs : List Variant)
    (h : (s.findVariant flag ctx vn vs).2.2 ≠ none) :
    (s.findVariant flag ctx vn vs).1 = "" ∧ (s.findVariant flag ctx vn vs).2.1 = false := by
  induction vs with
  | nil => simp [Store.findVariant] at h
  | cons v vs ih =>
    by_cases hname : v.Name = vn
    · by_cases hlen : v.Conditions.length > 0
      · cases hev : s.evaluator.evaluateAll v.Conditions ctx with
        | error err => simp [Store.findVariant, hname, hlen, hev]
        | ok b =>
          cases b <;> simp [Store.findVariant, hname, hlen, hev] at h
      · simp [Store.findVariant, hname, hlen] at h
    · simp only [Store.findVariant, if_neg hname] at h ⊢
      exact ih h

/-- C6 counterexample: the flag `rx` (stored through the public
`AddFlag`, default variant `control`) hits a malformed-regex evaluation
error, and the convenience `GetVariant` returns `("", false)` — the
empty string, not the flag's default variant as the claim states. -/
theorem C6_counterexample :
    (rxStore.GetVariantWithError "rx" rxCtx).2.2 ≠ none
  ∧ rxStore.GetVariant "rx" rxCtx = ("", false)
  ∧ rxStore.GetVariant "rx" rxCtx ≠ (regexFlag.DefaultVariant, false)
  ∧ rxStore.IsEnabled "rx" rxCtx = false := by
  decide

/-- C6 as amended: on every input where the error-returning forms fail,
the convenience forms fail safe without propagating the error —
`IsEnabled` returns false, and `GetVariant` returns the zero values
`("", false)` (not the stored flag's default variant). -/
theorem C6_failsafe_zero (s : Store) (name : String) (ctx : Context) :
    (s.IsEnabled name ctx = (s.IsEnabledWithError name ctx).1)
  ∧ (s.GetVariant name ctx =
      ((s.GetVariantWithError name ctx).1, (s.GetVariantWithError name ctx).2.1))
  ∧ ((s.IsEnabledWithError name ctx).2 ≠ none → s.IsEnabled name ctx = false)
  ∧ ((s.GetVariantWithError name ctx).2.2 ≠ none → s.GetVariant name ctx = ("", false)) := by
  refine ⟨rfl, rfl, ?_, ?_⟩
  · unfold Store.IsEnabled Store.IsEnabledWithError
    cases hgf : s.GetFlag name with
    | error e => simp
    | ok flag =>
      by_cases hen : flag.Enabled = false
      · simp [hen]
      · simp only [if_neg hen]
        by_cases hvn : flag.HasVariants
        · simp [hvn]
        · simp only [if_neg hvn]
          cases hev : s.evaluator.evaluateAll flag.Conditions ctx with
          | error err => simp
          | ok mtch =>
            by_cases hm : mtch = false
            · simp [hm]
            · simp only [if_neg hm]
              cases hsr : s.rolloutStrategy.shouldRollout flag ctx with
              | error err => simp
              | ok sr => simp
  · unfold Store.GetVariant Store.GetVariantWithError
    cases hgf : s.GetFlag name with
    | error e => simp
    | ok flag =>
      by_cases hen : flag.Enabled = false
      · simp [hen]
      · simp only [if_neg hen]
        cases hev : s.evaluator.evaluateAll flag.Conditions ctx with
        | error err => simp
        | ok mtch =>
          by_cases hm : mtch = false
          · simp [hm]
          · simp only [if_neg hm]
            by_cases hvn : flag.HasVariants = false
            · simp only [if_pos hvn]
              cases hsr : s.rolloutStrategy.shouldRollout flag ctx with
              | error err => simp
              | ok sr => cases sr <;> simp
            · simp only [if_neg hvn]
              cases hgv : s.rolloutStrategy.getVariant flag ctx with
              | error err => simp
              | ok vn =>
                intro h
                have hfv := findVariant_error s flag ctx vn flag.Variants h
                simp [hfv.1, hfv.2]

/-- C6 amended witness: the concrete erroring store from the
counterexample indeed fails safe to `("", false)` and `false`. -/
theorem C6_failsafe_zero_witness :
    rxStore.GetVariant "rx" rxCtx = ("", false)
  ∧ rxStore.IsEnabled "rx" rxCtx = false := by
  refine ⟨(C6_failsafe_zero rxStore "rx" rxCtx).2.2.2 (by decide), ?_⟩
  exact (C6_failsafe_zero rxStore "rx" rxCtx).2.2.1 (by decide)

/-- Folding the weight sum from `a` equals `a` plus the total weight. -/
theorem foldl_weight (vs : List Variant) (a : Int) :
    vs.foldl (fun acc v => acc + v.Weight) a = a + totalWeight vs := by
  induction vs generalizing a with
  | nil => simp [totalWeight]
  | cons v vs ih =>
    simp only [List.foldl, totalWeight]
    rw [ih, ih (0 + v.Weight)]
    ring

/-- Total weight of a cons is the head weight plus the tail total. -/
theorem totalWeight_cons (v : Variant) (vs : List Variant) :
    totalWeight (v :: vs) = v.Weight + totalWeight vs := by
  have h1 : totalWeight (v :: vs) =
      List.foldl (fun acc w => acc + w.Weight) (0 + v.Weight) vs := rfl
  rw [h1, foldl_weight]
  ring

/-- Total weight of nonnegative weights is nonnegative. -/
theorem totalWeight_nonneg (vs : List Variant) (h : ∀ w ∈ vs, 0 ≤ w.Weight) :
    0 ≤ totalWeight vs := by
  induction vs with
  | nil => simp [totalWeight]
  | cons v vs ih =>
    have hv := h v (by simp)
    have hrest : 0 ≤ totalWeight vs := ih (fun w hw => h w (by simp [hw]))
    have := totalWeight_cons v vs
    omega

/-- When the bucket is at or above the accumulator plus the remaining
total weight (all weights nonnegative), the cumulative walk selects
nothing. -/
theorem pickVariant_none_of_total_le (bucket : Int) (vs : List Variant) (acc : Int)
    (hw : ∀ w ∈ vs, 0 ≤ w.Weight) (hb : acc + totalWeight vs ≤ bucket) :
    DefaultRolloutStrategy.pickVariant bucket vs acc = none := by
  induction vs generalizing acc with
  | nil => simp [DefaultRolloutStrategy.pickVariant]
  | cons v vs ih =>
    have htot := totalWeight_cons v vs
    have hrest : 0 ≤ totalWeight vs :=
      totalWeight_nonneg vs (fun w hw' => hw w (by simp [hw']))
    have hnot : ¬ (bucket < acc + v.Weight) := by omega
    simp only [DefaultRolloutStrategy.pickVariant, if_neg hnot]
    exact ih (acc + v.Weight) (fun w hw' => hw w (by simp [hw'])) (by omega)

/-- When the sought variant name is not among the variant names, the
locating loop falls through to the default variant with enabled
false. -/
theorem findVariant_not_mem (s : Store) (flag : Flag) (ctx : Context) (vn : String)
    (vs : List Variant) (h : vn ∉ vs.map Variant.Name) :
    s.findVariant flag ctx vn vs = (flag.DefaultVariant, false, none) := by
  induction vs with
  | nil => simp [Store.findVariant]
  | cons v vs ih =>
    simp only [List.map_cons, List.mem_cons, not_or] at h
    have hne : v.Name ≠ vn := fun he => h.1 he.symm
    simp only [Store.findVariant, if_neg hne]
    exact ih h.2

/-- C7 counterexample: flag `ab` has variants `control:30, b:30`
(weights sum to 60 < 100) and default variant `control`; the context
`user_id = "2"` hashes to bucket 85, in the unallocated remainder, yet
the store's `GetVariant` returns `("control", true)` — enabled, not
`(defaultVariant, enabled=false)` as the claim states — because the
default variant name is itself a declared variant and the locating loop
finds it. -/
theorem C7_counterexample :
    totalWeight abFlag.Variants = 60
  ∧ FNVHash (abFlag.Name ++ ":variant:2") = 85
  ∧ abStore.GetVariant "ab" ctx2 = ("control", true)
  ∧ abStore.GetVariant "ab" ctx2 ≠ (abFlag.DefaultVariant, false) := by
  decide

/-- C7 as amended: for an enabled variant-bearing flag whose variant
weights (all nonnegative) sum to at most the context's hash bucket, the
strategy falls through to the default variant; provided the default
variant's name is not among the declared variant names, the store's
`GetVariantWithError` returns `(flag.DefaultVariant, false, nil)` —
i.e. enabled=false.  (Without that proviso the locating loop can find a
variant named like the default and return it enabled, as the
counterexample shows.) -/
theorem C7_unallocated_default (s : Store) (hasher : String → Nat) (name : String)
    (ctx : Context) (flag : Flag) (v : Value)
    (hstrat : s.rolloutStrategy = NewDefaultRolloutStrategy hasher)
    (hgf : s.GetFlag name = .ok flag)
    (hen : flag.Enabled = true)
    (hcond : s.evaluator.evaluateAll flag.Conditions ctx = .ok true)
    (hvars : flag.Variants ≠ [])
    (hget : Context.Get ctx flag.GetRolloutKey = some v)
    (hw : ∀ w ∈ flag.Variants, 0 ≤ w.Weight)
    (hbucket : totalWeight flag.Variants ≤
      (hasher (flag.Name ++ ":variant:" ++ v.sprint) : Int))
    (hdef : flag.DefaultVariant ∉ flag.Variants.map Variant.Name) :
    s.GetVariantWithError name ctx = (flag.DefaultVariant, false, none) := by
  have hvn : flag.HasVariants = true := by
    cases h : flag.Variants with
    | nil => exact absurd h hvars
    | cons a l => simp [Flag.HasVariants, h]
  have hpick : DefaultRolloutStrategy.pickVariant
      (hasher (flag.Name ++ ":variant:" ++ v.sprint) : Int) flag.Variants 0 = none := by
    refine pickVariant_none_of_total_le _ _ _ hw ?_
    omega
  have hgv : s.rolloutStrategy.getVariant flag ctx = .ok flag.DefaultVariant := by
    rw [hstrat]
    simp [NewDefaultRolloutStrategy, DefaultRolloutStrategy.GetVariant, hvn, hget, hpick]
  unfold Store.GetVariantWithError
  rw [hgf]
  simp [hen, hcond, hvn, hgv, findVariant_not_mem s flag ctx flag.DefaultVariant
    flag.Variants hdef]

/-- C7 amended witness: flag `ab` with variants `x:30, y:30` and
default variant `fallback` (not a variant name); bucket 85 falls in the
unallocated remainder and the result is `("fallback", false, nil)`. -/
theorem C7_unallocated_default_witness :
    abStore2.GetVariantWithError "ab" ctx2 = ("fallback", false, none) := by
  exact C7_unallocated_default abStore2 FNVHash "ab" ctx2 abFlag2
    (.scalar (.s "2")) rfl (by decide) (by decide) (by decide) (by decide)
    (by decide) (by decide) (by decide) (by decide)

/-- Interval and day counters of a switchback strategy observed at
offset `d` from its start time. -/
theorem switchback_eval (im t0 d : Int) (sw : Bool) :
    ({ intervalMinutes := im, startTime := t0, swapDaily := sw, now := t0 + d } :
        SwitchbackRolloutStrategy).GetCurrentInterval = d.tdiv (im * minuteNs)
  ∧ ({ intervalMinutes := im, startTime := t0, swapDaily := sw, now := t0 + d } :
        SwitchbackRolloutStrategy).GetCurrentDay = d.tdiv (24 * hourNs) := by
  constructor
  · simp only [SwitchbackRolloutStrategy.GetCurrentInterval]
    congr 1
    ring
  · simp only [SwitchbackRolloutStrategy.GetCurrentDay]
    congr 1
    ring

/-- C8: a 30-minute switchback over two variants `[A,B]` starting at
`T0` selects A at `T0`, B at `T0+30m`, A again at `T0+60m`; with daily
swap enabled it selects B at `T0+24h` (day 1, interval index 0 within
the cycle) instead of A. -/
theorem C8_switchback_pattern (t0 : Int) (F : Flag) (a b : String) (wa wb : Int)
    (ca cb : List Condition) (ctx : Context)
    (hv : F.Variants = [⟨a, wa, ca⟩, ⟨b, wb, cb⟩]) :
    ({ intervalMinutes := 30, startTime := t0, swapDaily := false, now := t0 } :
        SwitchbackRolloutStrategy).GetVariant F ctx = .ok a
  ∧ ({ intervalMinutes := 30, startTime := t0, swapDaily := false,
        now := t0 + 30 * minuteNs } :
        SwitchbackRolloutStrategy).GetVariant F ctx = .ok b
  ∧ ({ intervalMinutes := 30, startTime := t0, swapDaily := false,
        now := t0 + 60 * minuteNs } :
        SwitchbackRolloutStrategy).GetVariant F ctx = .ok a
  ∧ ({ intervalMinutes := 30, startTime := t0, swapDaily := true,
        now := t0 + 24 * hourNs } :
        SwitchbackRolloutStrategy).GetVariant F ctx = .ok b := by
  have hhv : F.HasVariants = true := by simp [Flag.HasVariants, hv]
  refine ⟨?_, ?_, ?_, ?_⟩
  · have hint : ({ intervalMinutes := 30, startTime := t0, swapDaily := false, now := t0 } :
        SwitchbackRolloutStrategy).GetCurrentInterval = 0 := by
      simp [SwitchbackRolloutStrategy.GetCurrentInterval, Int.zero_tdiv]
    have hday : ({ intervalMinutes := 30, startTime := t0, swapDaily := false, now := t0 } :
        SwitchbackRolloutStrategy).GetCurrentDay = 0 := by
      simp [SwitchbackRolloutStrategy.GetCurrentDay, Int.zero_tdiv]
    simp [SwitchbackRolloutStrategy.GetVariant, hhv, hint, hday, hv, goIndex,
      show Int.tmod 0 2 = 0 from by decide]
  · have hint := ((switchback_eval 30 t0 (30 * minuteNs) false).1).trans
      (show ((30 * minuteNs : Int)).tdiv (30 * minuteNs) = 1 from by decide)
    have hday := ((switchback_eval 30 t0 (30 * minuteNs) false).2).trans
      (show ((30 * minuteNs : Int)).tdiv (24 * hourNs) = 0 from by decide)
    simp [SwitchbackRolloutStrategy.GetVariant, hhv, hint, hday, hv, goIndex,
      show Int.tmod 1 2 = 1 from by decide]
  · have hint := ((switchback_eval 30 t0 (60 * minuteNs) false).1).trans
      (show ((60 * minuteNs : Int)).tdiv (30 * minuteNs) = 2 from by decide)
    have hday := ((switchback_eval 30 t0 (60 * minuteNs) false).2).trans
      (show ((60 * minuteNs : Int)).tdiv (24 * hourNs) = 0 from by decide)
    simp [SwitchbackRolloutStrategy.GetVariant, hhv, hint, hday, hv, goIndex,
      show Int.tmod 2 2 = 0 from by decide]
  · have hint := ((switchback_eval 30 t0 (24 * hourNs) true).1).trans
      (show ((24 * hourNs : Int)).tdiv (30 * minuteNs) = 48 from by decide)
    have hday := ((switchback_eval 30 t0 (24 * hourNs) true).2).trans
      (show ((24 * hourNs : Int)).tdiv (24 * hourNs) = 1 from by decide)
    simp [SwitchbackRolloutStrategy.GetVariant, hhv, hint, hday, hv, goIndex,
      show Int.tmod 48 2 = 0 from by decide, show Int.tmod 1 2 = 1 from by decide]

/-- C8 witness: the concrete flag `sb` with variants `[A,B]` follows
the pattern at start time zero. -/
theorem C8_switchback_pattern_witness :
    ({ intervalMinutes := 30, startTime := 0, swapDaily := false,
        now := 0 + 30 * minuteNs } :
        SwitchbackRolloutStrategy).GetVariant sbFlag [] = .ok "B" := by
  exact (C8_switchback_pattern 0 sbFlag "A" "B" 50 50 [] [] [] rfl).2.1

/-- In-range Go indexing returns the list element. -/
theorem goIndex_get (l : List Variant) (i : Int) (h0 : 0 ≤ i) (h1 : i < l.length) :
    goIndex l i = some (l.get ⟨i.toNat, by omega⟩) := by
  have hnot : ¬ (i < 0) := by omega
  have hlt : i.toNat < l.length := by omega
  simp [goIndex, hnot, List.getElem?_eq_getElem hlt]

/-- C9 counterexample: with the time source one minute before the start
time (`now < startTime`), `GetVariant` does not raise an error — it
silently returns the first variant; and 45 minutes before the start
time it computes the negative index −1 and aborts with an
index-out-of-range panic, again not an error return. -/
theorem C9_counterexample :
    sbNeg1.now < sbNeg1.startTime
  ∧ sbNeg1.GetVariant sbFlag [] = .ok "A"
  ∧ sbNeg45.now < sbNeg45.startTime
  ∧ sbNeg45.GetVariant sbFlag [] = .panicked := by
  decide

/-- C9 as amended: under the precondition `now ≥ startTime` (and a
positive interval), the computed current interval is a non-negative
integer and the variant index used to select from `flag.Variants` is
always in range, so `GetVariant` returns a stored variant's name — no
error and no panic.  For `now < startTime` the code does not raise an
error: the counterexample exhibits one input (a minute early) that
silently returns the first variant and another (45 minutes early, a
negative index) that panics. -/
theorem C9_interval_in_range (s : SwitchbackRolloutStrategy) (flag : Flag) (ctx : Context)
    (hnow : s.startTime ≤ s.now) (hpos : 0 < s.intervalMinutes) :
    0 ≤ s.GetCurrentInterval
  ∧ (flag.Variants ≠ [] →
      ∃ i : Fin flag.Variants.length,
        s.GetVariant flag ctx = .ok ((flag.Variants.get i).Name)) := by
  have helapsed : 0 ≤ s.now - s.startTime := by omega
  have hdur : 0 < s.intervalMinutes * minuteNs := by
    have hm : (0 : Int) < minuteNs := by decide
    exact mul_pos hpos hm
  have hival : 0 ≤ s.GetCurrentInterval :=
    Int.tdiv_nonneg helapsed (le_of_lt hdur)
  refine ⟨hival, ?_⟩
  intro hvars
  have hn : 0 < flag.Variants.length := List.length_pos.mpr hvars
  have hhv : flag.HasVariants = true := by
    simp [Flag.HasVariants, hn]
  have hInt : (0 : Int) < (flag.Variants.length : Int) := by exact_mod_cast hn
  have hne : ¬ ((flag.Variants.length : Int) = 0) := by omega
  have htm0 : 0 ≤ s.GetCurrentInterval.tmod (flag.Variants.length : Int) :=
    Int.tmod_nonneg _ hival
  have htm1 : s.GetCurrentInterval.tmod (flag.Variants.length : Int) <
      (flag.Variants.length : Int) :=
    Int.tmod_lt_of_pos _ hInt
  by_cases hsw : s.swapDaily = true ∧ s.GetCurrentDay.tmod 2 = 1
  · refine ⟨⟨(((flag.Variants.length : Int) - 1) -
        s.GetCurrentInterval.tmod (flag.Variants.length : Int)).toNat, by omega⟩, ?_⟩
    simp only [SwitchbackRolloutStrategy.GetVariant, hhv, Bool.true_eq_false,
      if_false, if_neg hne, if_pos hsw]
    rw [goIndex_get flag.Variants
      ((flag.Variants.length : Int) - 1 -
        s.GetCurrentInterval.tmod (flag.Variants.length : Int)) (by omega) (by omega)]
  · refine ⟨⟨(s.GetCurrentInterval.tmod (flag.Variants.length : Int)).toNat, by omega⟩, ?_⟩
    simp only [SwitchbackRolloutStrategy.GetVariant, hhv, Bool.true_eq_false,
      if_false, if_neg hne, if_neg hsw]
    rw [goIndex_get flag.Variants
      (s.GetCurrentInterval.tmod (flag.Variants.length : Int)) (by omega) (by omega)]

/-- C9 amended witness: at the start time itself the strategy selects a
stored variant with an in-range index. -/
theorem C9_interval_in_range_witness :
    0 ≤ sbAtStart.GetCurrentInterval
  ∧ ∃ i : Fin sbFlag.Variants.length,
      sbAtStart.GetVariant sbFlag [] = .ok ((sbFlag.Variants.get i).Name) := by
  have h := C9_interval_in_range sbAtStart sbFlag [] (by decide) (by decide)
  exact ⟨h.1, h.2 (by decide)⟩

/-- Members after `insertFlag` come from the original list or are the
inserted pair. -/
theorem insertFlag_mem (l : List (String × Flag)) (f : Flag) (p : String × Flag) :
    p ∈ insertFlag l f → p ∈ l ∨ p = (f.Name, f) := by
  induction l with
  | nil =>
    intro h
    simp only [insertFlag, List.mem_singleton] at h
    exact Or.inr h
  | cons q rest ih =>
    intro h
    rcases q with ⟨n, g⟩
    by_cases hn : n = f.Name
    · subst hn
      simp only [insertFlag, if_pos rfl] at h
      rcases List.mem_cons.mp h with h | h
      · exact Or.inr h
      · exact Or.inl (List.mem_cons_of_mem _ h)
    · simp only [insertFlag, if_neg hn] at h
      rcases List.mem_cons.mp h with h | h
      · exact Or.inl (by simp [h])
      · rcases ih h with h1 | h1
        · exact Or.inl (List.mem_cons_of_mem _ h1)
        · exact Or.inr h1

/-- `AddFlag` preserves store validity: only validated flags enter. -/
theorem storeValid_addFlag (s : Store) (f : Flag) (h : StoreValid s) :
    StoreValid (s.AddFlag f).2 := by
  cases hv : f.Validate with
  | some e =>
    intro p hp
    simp only [Store.AddFlag, hv] at hp
    exact h p hp
  | none =>
    intro p hp
    simp only [Store.AddFlag, hv] at hp
    rcases insertFlag_mem _ _ _ hp with h1 | h1
    · exact h p h1
    · rw [h1]
      exact hv

/-- `AddFlags` preserves store validity. -/
theorem storeValid_addFlags (s : Store) (fs : List Flag) (h : StoreValid s) :
    StoreValid (s.AddFlags fs).2 := by
  induction fs generalizing s with
  | nil => exact h
  | cons f fs ih =>
    have hs' : StoreValid (s.AddFlag f).2 := storeValid_addFlag s f h
    cases haf : s.AddFlag f with
    | mk err s' =>
      rw [haf] at hs'
      cases err with
      | some e => simpa [Store.AddFlags, haf] using hs'
      | none =>
        simp only [Store.AddFlags, haf]
        exact ih s' hs'

/-- Every store operation preserves store validity; the evaluation
operations do not touch the state at all. -/
theorem storeValid_applyOp (s : Store) (op : StoreOp) (h : StoreValid s) :
    StoreValid (applyOp s op) := by
  cases op with
  | addFlag f => exact storeValid_addFlag s f h
  | addFlags fs => exact storeValid_addFlags s fs h
  | removeFlag n =>
    intro p hp
    simp only [applyOp, Store.RemoveFlag, List.mem_filter] at hp
    exact h p hp.1
  | clear => intro p hp; simp [applyOp, Store.Clear] at hp
  | isEnabled n ctx => exact h
  | isEnabledWithError n ctx => exact h
  | getVariant n ctx => exact h
  | getVariantWithError n ctx => exact h

/-- C10: in every registry state reachable from a fresh store by any
sequence of `AddFlag`, `AddFlags`, `RemoveFlag`, `Clear` and evaluation
operations, every stored flag satisfies the validity predicate
(non-empty name, rollout in [0,100], every condition including variant
conditions valid, variant weights in [0,100] summing to at most 100);
and the evaluation operations leave the flag map unchanged (in this
embedding they are functions out of the store, as the Go methods only
read under a read lock). -/
theorem C10_registry_invariant (rm : RegexMatcher) (ops : List StoreOp) :
    (∀ p ∈ (ops.foldl applyOp (NewStore rm)).flags, FlagValid p.2)
  ∧ (∀ (s : Store) (n : String) (ctx : Context),
      applyOp s (.isEnabled n ctx) = s ∧ applyOp s (.isEnabledWithError n ctx) = s ∧
      applyOp s (.getVariant n ctx) = s ∧ applyOp s (.getVariantWithError n ctx) = s) := by
  constructor
  · have hfold : ∀ (l : List StoreOp) (s : Store), StoreValid s →
        StoreValid (l.foldl applyOp s) := by
      intro l
      induction l with
      | nil => intro s hs; exact hs
      | cons op l ih =>
        intro s hs
        exact ih _ (storeValid_applyOp s op hs)
    intro p hp
    have hempty : StoreValid (NewStore rm) := by
      intro q hq
      simp [NewStore] at hq
    exact (flagValidate_none_iff p.2).mp (hfold ops _ hempty p hp)
  · intro s n ctx
    exact ⟨rfl, rfl, rfl, rfl⟩

/-- C10 witness: after adding the concrete valid flag `g` to a fresh
store, the stored flag satisfies the validity predicate. -/
theorem C10_registry_invariant_witness : FlagValid goodFlag := by
  exact (C10_registry_invariant goRegexEngine [StoreOp.addFlag goodFlag]).1
    (goodFlag.Name, goodFlag) (by decide)

end Toggo
